import Mathlib

/-!
Verification of the vehicle-monitoring Flask application (`src/app.py`)
against its natural-language specification.

Shallow embedding conventions:
* Python strings are modelled as lists of Unicode code points (`PyStr := List Nat`).
  `strToCodes` converts a Lean string literal to this representation for
  concrete test inputs.
* `str.upper()` is modelled by the ASCII case map `pyToUpper` (the plate and
  form strings of this application are ASCII).
* `str.strip()` is modelled by `pyStrip`, removing leading and trailing
  whitespace code points (space, tab, newline, carriage return, vertical tab,
  form feed — the ASCII whitespace that Python strips).
* `str.replace(" ", "")` is modelled by filtering out the space code point 32.
* The external collaborators (OpenCV/Tesseract vision pipeline, Twilio
  gateway, IP geocoder) are black boxes per the specification; their outcomes
  are passed to the embedded handlers as explicit parameters
  (OCR text sequence, gateway `Except` outcome, geocoder `Except` response).
* Python exceptions are modelled with `Except`; a handler without a
  try/except around a raising call returns `Except.error`, a handler that
  catches converts the error into a value.
-/

/-- A Python string, as its sequence of code points. -/
abbrev PyStr := List Nat

/-- Code points of a Lean string literal, for concrete inputs. -/
def strToCodes (s : String) : PyStr := s.data.map Char.toNat

/-- ASCII whitespace stripped by Python `str.strip()`:
space, \t, \n, \v, \f, \r. -/
def pyIsSpace (c : Nat) : Bool := c == 32 || c == 9 || c == 10 || c == 11 || c == 12 || c == 13

/-- ASCII model of Python `str.upper()`, applied per code point. -/
def pyToUpper (c : Nat) : Nat := if 97 ≤ c ∧ c ≤ 122 then c - 32 else c

/-- Python `s.strip()`: remove trailing whitespace (via the reversal) and
then leading whitespace. -/
def pyStrip (l : PyStr) : PyStr :=
  ((l.reverse.dropWhile pyIsSpace).reverse).dropWhile pyIsSpace

/-- Candidate normalization from `app.py` line 173:
`d.upper().replace(" ", "")`. -/
def normalizeCand (s : PyStr) : PyStr :=
  (s.map pyToUpper).filter (fun c => decide (c ≠ 32))

/-- Target normalization from `app.py` line 111:
`p.strip().upper().replace(" ", "")`. -/
def normalizeTarget (p : PyStr) : PyStr := normalizeCand (pyStrip p)

/-- Python `s.split(",")` (comma is code point 44). -/
def splitComma : PyStr → List PyStr
  | [] => [[]]
  | c :: rest =>
    match splitComma rest with
    | [] => [[]]
    | g :: gs => if c = 44 then [] :: g :: gs else (c :: g) :: gs

/-- The module-level mutable state of `app.py` (lines 22-24):
`TARGET_PLATE_NUMBERS`, `RECIPIENT_NAME`, `RECIPIENT_PHONE_NUMBER`. -/
structure Store where
  TARGET_PLATE_NUMBERS : List PyStr
  RECIPIENT_NAME : PyStr
  RECIPIENT_PHONE_NUMBER : PyStr
deriving DecidableEq

/-- Outcome of the `set_target` handler: either the flashed validation
error with redirect back to the login page, or the success flash with
redirect to the detection page. -/
inductive SetTargetResult
  | validationNotice
  | redirectToDetect
deriving DecidableEq

/-- The `set_target` handler (`app.py` lines 100-116). Takes the current
global store and the three form fields; returns the new store and the
outcome. Mirrors: strip all three fields; reject if any is falsy (empty);
otherwise rebuild `TARGET_PLATE_NUMBERS` from the comma-split entries,
keeping entries with non-empty strip and normalizing each with
`p.strip().upper().replace(" ", "")`. -/
def set_target (store : Store) (plate_number phone_number name : PyStr) :
    Store × SetTargetResult :=
  let plate_numbers := pyStrip plate_number
  let phone := pyStrip phone_number
  let nm := pyStrip name
  if plate_numbers = [] ∨ phone = [] ∨ nm = [] then
    (store, SetTargetResult.validationNotice)
  else
    ({ TARGET_PLATE_NUMBERS :=
         ((splitComma plate_numbers).filter (fun p => decide (¬ pyStrip p = []))).map
           normalizeTarget,
       RECIPIENT_NAME := nm,
       RECIPIENT_PHONE_NUMBER := phone },
     SetTargetResult.redirectToDetect)

/-- The de-duplication loop of `detect_license_plate_from_image`
(`app.py` lines 70-73): `for p in detected_plates: if p not in
detected_unique: detected_unique.append(p)`, with `acc` the accumulator
`detected_unique`. -/
def dedupKeepFirst : List PyStr → List PyStr → List PyStr
  | acc, [] => acc
  | acc, p :: ps =>
    if p ∈ acc then dedupKeepFirst acc ps else dedupKeepFirst (acc ++ [p]) ps

/-- The text-handling part of `detect_license_plate_from_image`
(`app.py` lines 55-74). The vision stages (resize, blur, Canny, contours,
quadrilateral/size filters, Otsu crop) and the OCR engine are external
black boxes per the specification; `ocrTexts` is the sequence of raw
OCR outputs for the retained crops, in contour order. The function
mirrors: strip each OCR output, keep the non-empty ones in order
(lines 66-68), then de-duplicate by exact equality keeping first
occurrences (lines 70-74). -/
def detect_license_plate_from_image (ocrTexts : List PyStr) : List PyStr :=
  dedupKeepFirst [] ((ocrTexts.map pyStrip).filter (fun p => decide (¬ p = [])))

/-- The match loop of `upload_image` (`app.py` lines 176-180):
`for d, dn in zip(detected, detected_norm): for target in
TARGET_PLATE_NUMBERS: if target and target == dn: matches.append(d)`
where `detected_norm = [d.upper().replace(" ", "") for d in detected]`. -/
def plateMatches (detected : List PyStr) (targets : List PyStr) : List PyStr :=
  match detected with
  | [] => []
  | d :: ds =>
    ((targets.filter (fun t => decide (¬ t = []) && decide (t = normalizeCand d))).map
      (fun _ => d)) ++ plateMatches ds targets

/-- Response of the `geocoder.ip` call: the `latlng` coordinate pair (or
`none` when the service yields no pair — a falsy `g.latlng`) and the
`city` attribute (`none` models Python `None`; the empty string is also
falsy). Coordinates are abstracted as integers. -/
structure GeoResponse where
  latlng : Option (Int × Int)
  city : Option PyStr
deriving DecidableEq

/-- A latitude/longitude slot of the result: either a real coordinate or
the literal string `"Unknown"` used as sentinel by `get_location`. -/
inductive LocValue
  | coord (v : Int)
  | unknown
deriving DecidableEq

/-- The sentinel place name of `get_location`. -/
def unknownPlace : PyStr := strToCodes "Unknown place"

/-- The `get_location` helper (`app.py` lines 77-91). The geocoder call
either raises (`Except.error`, absorbed by the `except` clause) or
returns a `GeoResponse`. Mirrors: on a truthy `latlng`, use its two
components and `g.city if g.city else "Unknown place"`; otherwise the
`"Unknown"` sentinels. -/
def get_location (resp : Except Unit GeoResponse) : LocValue × LocValue × PyStr :=
  match resp with
  | Except.error _ => (LocValue.unknown, LocValue.unknown, unknownPlace)
  | Except.ok g =>
    match g.latlng with
    | some (la, ln) =>
      (LocValue.coord la, LocValue.coord ln,
        match g.city with
        | some c => if c = [] then unknownPlace else c
        | none => unknownPlace)
    | none => (LocValue.unknown, LocValue.unknown, unknownPlace)

/-- The three Twilio credentials (`app.py` lines 17-19); an empty string
models an unset environment variable. -/
structure TwilioCreds where
  ACCOUNT_SID : PyStr
  AUTH_TOKEN : PyStr
  FROM_PHONE : PyStr
deriving DecidableEq

/-- A transport-level failure raised by the Twilio client
(`client.messages.create`). -/
inductive SmsError
  | transport (msg : PyStr)
deriving DecidableEq

/-- The `send_sms` helper (`app.py` lines 31-39). `gateway` is the
outcome of `client.messages.create(...)`: the message SID on success or a
raised transport error. The returned `Bool` records whether a dispatch
was attempted at all. Mirrors: if any credential is falsy, log and
return `None` without touching the gateway; otherwise call the gateway
and return its SID (an uncaught gateway error propagates). -/
def send_sms (creds : TwilioCreds) (gateway : Except SmsError PyStr) :
    Bool × Except SmsError (Option PyStr) :=
  if creds.ACCOUNT_SID = [] ∨ creds.AUTH_TOKEN = [] ∨ creds.FROM_PHONE = [] then
    (false, Except.ok none)
  else
    (true, gateway.map some)

/-- Flash category attached to the rendered outcome of the notification
stage of `upload_image`. -/
inductive FlashCategory
  | success
  | warning
  | info
deriving DecidableEq

/-- The notification stage of `upload_image` (`app.py` lines 183-191):
`if matches and RECIPIENT_PHONE_NUMBER:` send the SMS and flash success;
`elif matches:` flash the phone-not-configured warning; `else` flash the
no-match info notice. There is no try/except around `send_sms` in the
handler, so a gateway error propagates out (`Except.error`) and the
result page of line 193 is not reached; on `Except.ok` the handler
renders with the returned `sms_sid` and flash. -/
def notifyAndFlash (matchList : List PyStr) (recipientPhone : PyStr)
    (creds : TwilioCreds) (gateway : Except SmsError PyStr) :
    Except SmsError (Option PyStr × FlashCategory) :=
  if ¬ matchList = [] ∧ ¬ recipientPhone = [] then
    match (send_sms creds gateway).2 with
    | Except.ok sid => Except.ok (sid, FlashCategory.success)
    | Except.error e => Except.error e
  else if ¬ matchList = [] then
    Except.ok (none, FlashCategory.warning)
  else
    Except.ok (none, FlashCategory.info)

/-- An inbound `POST /upload_image` request, as seen by the image
acquisition code of `upload_image` (`app.py` lines 150-169).
`fileData` is `some` of the uploaded bytes when `'image_file' in
request.files and request.files['image_file'].filename` holds;
`formImageData` is `request.form.get('image_data', '')`; `jsonImageData`
is `request.json.get('image_data')` (with `none` for Python `None`). -/
structure UploadRequest where
  fileData : Option PyStr
  isJson : Bool
  formImageData : PyStr
  jsonImageData : Option PyStr

/-- Line 159 of `app.py`:
`image_data = request.form.get('image_data', '') or
request.json.get('image_data') if request.is_json else ''`.
Python parses this conditional expression as
`(form.get(...) or json.get(...)) if request.is_json else ''`, the
`or` returning its first truthy operand; `none` models Python `None`
and `some []` the empty string. -/
def selectImageData (r : UploadRequest) : Option PyStr :=
  if r.isJson then
    (if r.formImageData = [] then r.jsonImageData else some r.formImageData)
  else
    some []

/-- Outcome of the image-acquisition part of `upload_image`
(`app.py` lines 150-169): a flashed file-read error, a flashed
data-URL decode error, the `"No image received."` error flash, or entry
into the detection pipeline with the decoded image. -/
inductive UploadImageOutcome (β : Type)
  | fileReadError
  | dataDecodeError
  | noImageReceived
  | detectionPipeline (img : β)
deriving DecidableEq

/-- Image acquisition of `upload_image` (`app.py` lines 150-169).
`decodeFile` and `decodeData` are `_read_image_from_file_storage` and
`_read_image_from_base64`, whose raising is modelled by `Except`.
Mirrors: prefer the uploaded file (decode errors are caught and
flashed); otherwise evaluate line 159 and, when `image_data` is truthy,
decode it (errors caught and flashed); if no image was produced, flash
`"No image received."`. -/
def acquireImage {β : Type} (decodeFile decodeData : PyStr → Except PyStr β)
    (r : UploadRequest) : UploadImageOutcome β :=
  match r.fileData with
  | some content =>
    match decodeFile content with
    | Except.ok img => UploadImageOutcome.detectionPipeline img
    | Except.error _ => UploadImageOutcome.fileReadError
  | none =>
    match selectImageData r with
    | some d =>
      if d = [] then UploadImageOutcome.noImageReceived
      else
        match decodeData d with
        | Except.ok img => UploadImageOutcome.detectionPipeline img
        | Except.error _ => UploadImageOutcome.dataDecodeError
    | none => UploadImageOutcome.noImageReceived

/-! ### Helper lemmas about the string model -/

theorem pyToUpper_idem (c : Nat) : pyToUpper (pyToUpper c) = pyToUpper c := by
  unfold pyToUpper
  split
  · split
    · omega
    · rfl
  · rfl

theorem pyToUpper_ne_32 {c : Nat} (h : c ≠ 32) : pyToUpper c ≠ 32 := by
  unfold pyToUpper
  split
  · omega
  · exact h

theorem pyIsSpace_eq_false_iff (c : Nat) :
    pyIsSpace c = false ↔ c ≠ 32 ∧ c ≠ 9 ∧ c ≠ 10 ∧ c ≠ 11 ∧ c ≠ 12 ∧ c ≠ 13 := by
  simp only [pyIsSpace, Bool.or_eq_false_iff, beq_eq_false_iff_ne, ne_eq]
  tauto

theorem pyToUpper_nonspace {c : Nat} (h : pyIsSpace c = false) :
    pyIsSpace (pyToUpper c) = false := by
  rw [pyIsSpace_eq_false_iff] at h ⊢
  unfold pyToUpper
  split
  · omega
  · exact h

theorem normalizeCand_nil : normalizeCand [] = [] := rfl

theorem normalizeCand_cons (c : Nat) (t : PyStr) :
    normalizeCand (c :: t) =
      if pyToUpper c = 32 then normalizeCand t else pyToUpper c :: normalizeCand t := by
  simp only [normalizeCand, List.map_cons, List.filter_cons]
  by_cases h : pyToUpper c = 32
  · simp [h]
  · simp [h]

theorem mem_normalizeCand {c : Nat} {s : PyStr} (h : c ∈ normalizeCand s) :
    pyToUpper c = c ∧ c ≠ 32 := by
  unfold normalizeCand at h
  have h2 := List.mem_filter.mp h
  have h32 : c ≠ 32 := by simpa using h2.2
  obtain ⟨d, _, hd⟩ := List.mem_map.mp h2.1
  refine ⟨?_, h32⟩
  rw [← hd, pyToUpper_idem]

theorem normalizeCand_fixed {l : PyStr} (h : ∀ c ∈ l, pyToUpper c = c ∧ c ≠ 32) :
    normalizeCand l = l := by
  induction l with
  | nil => rfl
  | cons c t ih =>
    have hc := h c (by simp)
    rw [normalizeCand_cons]
    have h32 : ¬ pyToUpper c = 32 := by rw [hc.1]; exact hc.2
    rw [if_neg h32, hc.1, ih (fun d hd => h d (by simp [hd]))]

theorem normalizeCand_idem (s : PyStr) : normalizeCand (normalizeCand s) = normalizeCand s :=
  normalizeCand_fixed (fun _ hc => mem_normalizeCand hc)

theorem normalizeCand_reverse (l : PyStr) :
    normalizeCand l.reverse = (normalizeCand l).reverse := by
  unfold normalizeCand
  rw [List.map_reverse, List.filter_reverse]

theorem head?_dropWhile_nonspace :
    ∀ (l : PyStr) (c : Nat), (l.dropWhile pyIsSpace).head? = some c → pyIsSpace c = false := by
  intro l
  induction l with
  | nil => intro c h; simp at h
  | cons a t ih =>
    intro c h
    rw [List.dropWhile_cons] at h
    by_cases ha : pyIsSpace a
    · exact ih c (by simpa [ha] using h)
    · rw [if_neg ha] at h
      simp only [List.head?_cons, Option.some.injEq] at h
      rw [← h]
      simpa using ha

theorem dropWhile_suffix (l : PyStr) (p : Nat → Bool) : ∃ t, l = t ++ l.dropWhile p := by
  induction l with
  | nil => exact ⟨[], rfl⟩
  | cons a t ih =>
    by_cases h : p a
    · obtain ⟨pre, hp⟩ := ih
      refine ⟨a :: pre, ?_⟩
      rw [List.dropWhile_cons, if_pos h]
      simpa using congrArg (a :: ·) hp
    · exact ⟨[], by simp [List.dropWhile_cons, h]⟩

theorem head?_append_left {l l2 : PyStr} (h : l ≠ []) : (l ++ l2).head? = l.head? := by
  cases l with
  | nil => exact absurd rfl h
  | cons a t => simp

theorem pyStrip_head {l : PyStr} {c : Nat} (h : (pyStrip l).head? = some c) :
    pyIsSpace c = false := by
  exact head?_dropWhile_nonspace _ c h

theorem pyStrip_revhead {l : PyStr} {c : Nat} (h : (pyStrip l).reverse.head? = some c) :
    pyIsSpace c = false := by
  obtain ⟨t, ht⟩ := dropWhile_suffix ((l.reverse.dropWhile pyIsSpace).reverse) pyIsSpace
  have hne : (pyStrip l).reverse ≠ [] := by
    intro hnil
    rw [hnil] at h
    simp at h
  have hrev : l.reverse.dropWhile pyIsSpace = (pyStrip l).reverse ++ t.reverse := by
    have := congrArg List.reverse ht
    rw [List.reverse_append] at this
    simpa [pyStrip] using this
  apply head?_dropWhile_nonspace l.reverse c
  rw [hrev, head?_append_left hne, h]

theorem pyStrip_eq_self_of {l : PyStr}
    (h1 : ∀ c, l.head? = some c → pyIsSpace c = false)
    (h2 : ∀ c, l.reverse.head? = some c → pyIsSpace c = false) :
    pyStrip l = l := by
  have hr : l.reverse.dropWhile pyIsSpace = l.reverse := by
    cases hc : l.reverse with
    | nil => simp
    | cons a t =>
      rw [List.dropWhile_cons, if_neg]
      rw [h2 a (by rw [hc]; rfl)]
      simp
  unfold pyStrip
  rw [hr, List.reverse_reverse]
  cases hc : l with
  | nil => simp
  | cons a t =>
    rw [List.dropWhile_cons, if_neg]
    rw [h1 a (by rw [hc]; rfl)]
    simp

theorem pyStrip_idem (l : PyStr) : pyStrip (pyStrip l) = pyStrip l :=
  pyStrip_eq_self_of (fun _ h => pyStrip_head h) (fun _ h => pyStrip_revhead h)

theorem pyStrip_all_space {l : PyStr} (h : ∀ c ∈ l, pyIsSpace c = true) : pyStrip l = [] := by
  unfold pyStrip
  rw [List.dropWhile_eq_nil_iff.mpr (fun x hx => h x (List.mem_reverse.mp hx))]
  simp

theorem normalizeCand_head_nonspace {x : PyStr}
    (hx : ∀ c, x.head? = some c → pyIsSpace c = false) :
    ∀ c, (normalizeCand x).head? = some c → pyIsSpace c = false := by
  cases x with
  | nil => intro c h; simp [normalizeCand_nil] at h
  | cons a t =>
    intro c h
    have ha : pyIsSpace a = false := hx a rfl
    have ha32 : a ≠ 32 := ((pyIsSpace_eq_false_iff a).mp ha).1
    rw [normalizeCand_cons, if_neg (pyToUpper_ne_32 ha32)] at h
    simp only [List.head?_cons, Option.some.injEq] at h
    rw [← h]
    exact pyToUpper_nonspace ha

theorem pyStrip_normalizeCand_pyStrip (l : PyStr) :
    pyStrip (normalizeCand (pyStrip l)) = normalizeCand (pyStrip l) := by
  apply pyStrip_eq_self_of
  · exact normalizeCand_head_nonspace (fun _ h => pyStrip_head h)
  · intro c h
    rw [← normalizeCand_reverse] at h
    exact normalizeCand_head_nonspace (fun _ h2 => pyStrip_revhead h2) c h

/-! ### Claim theorems -/

/-- C9: the normalization applied to candidates (`d.upper().replace(" ", "")`)
and to targets (`p.strip().upper().replace(" ", "")`) is idempotent:
normalizing an already-normalized string changes nothing. -/
theorem normalize_idempotent (s : PyStr) :
    normalizeCand (normalizeCand s) = normalizeCand s ∧
    normalizeTarget (normalizeTarget s) = normalizeTarget s := by
  refine ⟨normalizeCand_idem s, ?_⟩
  show normalizeCand (pyStrip (normalizeCand (pyStrip s))) = normalizeCand (pyStrip s)
  rw [pyStrip_normalizeCand_pyStrip, normalizeCand_idem]

/-- C5: a `set_target` submission in which any of the three form fields is
empty or consists only of whitespace leaves the store unchanged and
produces the validation notice. -/
theorem set_target_blank_field_rejected (store : Store) (plate phone name : PyStr)
    (h : (∀ c ∈ plate, pyIsSpace c = true) ∨ (∀ c ∈ phone, pyIsSpace c = true) ∨
         (∀ c ∈ name, pyIsSpace c = true)) :
    set_target store plate phone name = (store, SetTargetResult.validationNotice) := by
  have hp : pyStrip plate = [] ∨ pyStrip phone = [] ∨ pyStrip name = [] := by
    rcases h with h | h | h
    · exact Or.inl (pyStrip_all_space h)
    · exact Or.inr (Or.inl (pyStrip_all_space h))
    · exact Or.inr (Or.inr (pyStrip_all_space h))
  simp only [set_target]
  rw [if_pos hp]

theorem set_target_blank_field_rejected_witness :
    set_target ⟨[strToCodes "OLD1"], strToCodes "Bob", strToCodes "111"⟩
      (strToCodes " \t") (strToCodes "5551234") (strToCodes "Jane") =
      (⟨[strToCodes "OLD1"], strToCodes "Bob", strToCodes "111"⟩,
        SetTargetResult.validationNotice) :=
  set_target_blank_field_rejected _ _ _ _ (Or.inl (by decide))

/-- C10: a `set_target` submission whose plate field is non-blank but whose
every comma-separated entry is blank (such as a lone comma) passes
validation: the store is overwritten with an empty target list and the
stripped recipient fields, and the request redirects to the detection
page. -/
theorem set_target_all_blank_entries_accepted (store : Store) (plate phone name : PyStr)
    (hp : ¬ pyStrip plate = []) (hph : ¬ pyStrip phone = []) (hn : ¬ pyStrip name = [])
    (he : ∀ e ∈ splitComma (pyStrip plate), pyStrip e = []) :
    set_target store plate phone name =
      ({ TARGET_PLATE_NUMBERS := [], RECIPIENT_NAME := pyStrip name,
         RECIPIENT_PHONE_NUMBER := pyStrip phone }, SetTargetResult.redirectToDetect) := by
  simp only [set_target]
  rw [if_neg (by tauto)]
  have hf : (splitComma (pyStrip plate)).filter (fun p => decide (¬ pyStrip p = [])) = [] :=
    List.filter_eq_nil_iff.mpr (fun a ha => by simp [he a ha])
  rw [hf]
  rfl

theorem set_target_all_blank_entries_accepted_witness :
    set_target ⟨[], [], []⟩ (strToCodes ",") (strToCodes "1") (strToCodes "J") =
      ({ TARGET_PLATE_NUMBERS := [], RECIPIENT_NAME := strToCodes "J",
         RECIPIENT_PHONE_NUMBER := strToCodes "1" }, SetTargetResult.redirectToDetect) := by
  have h := set_target_all_blank_entries_accepted ⟨[], [], []⟩ (strToCodes ",")
    (strToCodes "1") (strToCodes "J") (by decide) (by decide) (by decide) (by decide)
  rw [h]
  decide

/-- C3 counterexample: submitting the plate field `"ab\tcd"` (with non-blank
phone and name) stores the string `"AB\tCD"`, which contains the internal
whitespace code point 9 (tab) — so the stored targets are not free of
internal whitespace of every kind. -/
theorem set_target_stores_internal_tab :
    (set_target ⟨[], [], []⟩ (strToCodes "ab\tcd") (strToCodes "5551234")
        (strToCodes "Jane")).1.TARGET_PLATE_NUMBERS = [[65, 66, 9, 67, 68]] ∧
    (9 : Nat) ∈ ([65, 66, 9, 67, 68] : PyStr) ∧ pyIsSpace 9 = true := by
  decide

/-- C3 amended: after every successful `set_target` submission, every stored
target string is a fixed point of the candidate normalization — all its
code points are uppercase-stable and none is the space character 32
(internal non-space whitespace such as tab may remain) — so the
`upload_image` comparison pits `normalizeCand` of a candidate against
values on which `normalizeCand` acts as the identity. -/
theorem set_target_plates_upper_no_space (store : Store) (plate phone name : PyStr)
    (hsucc : (set_target store plate phone name).2 = SetTargetResult.redirectToDetect) :
    ∀ t ∈ (set_target store plate phone name).1.TARGET_PLATE_NUMBERS,
      (∀ c ∈ t, pyToUpper c = c ∧ c ≠ 32) ∧ normalizeCand t = t := by
  by_cases hcond : pyStrip plate = [] ∨ pyStrip phone = [] ∨ pyStrip name = []
  · exfalso
    simp only [set_target] at hsucc
    rw [if_pos hcond] at hsucc
    exact SetTargetResult.noConfusion hsucc
  · intro t ht
    simp only [set_target] at ht
    rw [if_neg hcond] at ht
    obtain ⟨p, _, hp⟩ := List.mem_map.mp ht
    have htn : t = normalizeCand (pyStrip p) := hp.symm
    subst htn
    exact ⟨fun c hc => mem_normalizeCand hc,
      normalizeCand_fixed (fun c hc => mem_normalizeCand hc)⟩

theorem set_target_plates_upper_no_space_witness :
    (∀ c ∈ strToCodes "ABCD", pyToUpper c = c ∧ c ≠ 32) ∧
    normalizeCand (strToCodes "ABCD") = strToCodes "ABCD" := by
  have h := set_target_plates_upper_no_space ⟨[], [], []⟩ (strToCodes "ab cd")
    (strToCodes "1") (strToCodes "J") (by decide)
  exact h (strToCodes "ABCD") (by decide)

/-- C7: `get_location` absorbs every behavior of the geolocation service:
on a raised exception or a missing coordinate pair it returns the
sentinel triple, its place-name component is never empty, and when a
coordinate pair is present both coordinates are returned. -/
theorem get_location_total_and_sentinel (resp : Except Unit GeoResponse) :
    ((resp = Except.error () ∨ ∃ g, resp = Except.ok g ∧ g.latlng = none) →
      get_location resp = (LocValue.unknown, LocValue.unknown, unknownPlace)) ∧
    ¬ (get_location resp).2.2 = [] ∧
    (∀ g la ln, resp = Except.ok g → g.latlng = some (la, ln) →
      (get_location resp).1 = LocValue.coord la ∧
      (get_location resp).2.1 = LocValue.coord ln) := by
  cases resp with
  | error u =>
    cases u
    exact ⟨fun _ => rfl, by decide, fun g la ln h _ => Except.noConfusion h⟩
  | ok g =>
    obtain ⟨latlng, city⟩ := g
    cases latlng with
    | none =>
      refine ⟨fun _ => rfl, (by decide : ¬ unknownPlace = []), ?_⟩
      intro g2 la ln hok hll
      injection hok with h2
      rw [← h2] at hll
      simp at hll
    | some p =>
      obtain ⟨la0, ln0⟩ := p
      refine ⟨?_, ?_, ?_⟩
      · intro h
        rcases h with h | ⟨g2, hok, hll⟩
        · exact Except.noConfusion h
        · injection hok with h2
          rw [← h2] at hll
          simp at hll
      · cases city with
        | none => exact (by decide : ¬ unknownPlace = [])
        | some c =>
          by_cases hc : c = []
          · subst hc
            exact (by decide : ¬ unknownPlace = [])
          · show ¬ (if c = [] then unknownPlace else c) = []
            rw [if_neg hc]
            exact hc
      · intro g2 la ln hok hll
        injection hok with h2
        rw [← h2] at hll
        simp only [Option.some.injEq, Prod.mk.injEq] at hll
        rw [← hll.1, ← hll.2]
        exact ⟨rfl, rfl⟩

theorem get_location_total_and_sentinel_witness :
    get_location (Except.error ()) = (LocValue.unknown, LocValue.unknown, unknownPlace) ∧
    get_location (Except.ok ⟨some (7, 9), some (strToCodes "Pune")⟩) =
      (LocValue.coord 7, LocValue.coord 9, strToCodes "Pune") := by
  constructor
  · exact (get_location_total_and_sentinel (Except.error ())).1 (Or.inl rfl)
  · have h := (get_location_total_and_sentinel
      (Except.ok ⟨some (7, 9), some (strToCodes "Pune")⟩)).2.2
      ⟨some (7, 9), some (strToCodes "Pune")⟩ 7 9 rfl rfl
    have h3 : (get_location (Except.ok ⟨some (7, 9), some (strToCodes "Pune")⟩)).2.2 =
        strToCodes "Pune" := by decide
    rw [Prod.ext_iff, Prod.ext_iff]
    exact ⟨h.1, h.2, h3⟩

/-- C8: `send_sms` with any credential absent attempts no dispatch,
raises nothing and returns `None`; with all three credentials present it
attempts delivery and returns the gateway outcome (the delivery SID on
success, the propagated transport error otherwise). -/
theorem send_sms_credential_gate (creds : TwilioCreds) (gateway : Except SmsError PyStr) :
    ((creds.ACCOUNT_SID = [] ∨ creds.AUTH_TOKEN = [] ∨ creds.FROM_PHONE = []) →
      send_sms creds gateway = (false, Except.ok none)) ∧
    (¬ creds.ACCOUNT_SID = [] → ¬ creds.AUTH_TOKEN = [] → ¬ creds.FROM_PHONE = [] →
      send_sms creds gateway = (true, gateway.map some)) := by
  constructor
  · intro h
    simp only [send_sms]
    rw [if_pos h]
  · intro h1 h2 h3
    simp only [send_sms]
    rw [if_neg (by tauto)]

theorem send_sms_credential_gate_witness :
    send_sms ⟨[], strToCodes "token", strToCodes "+15550000000"⟩
      (Except.ok (strToCodes "SM1")) = (false, Except.ok none) ∧
    send_sms ⟨strToCodes "AC1", strToCodes "token", strToCodes "+15550000000"⟩
      (Except.ok (strToCodes "SM1")) = (true, Except.ok (some (strToCodes "SM1"))) := by
  constructor
  · exact (send_sms_credential_gate _ _).1 (Or.inl rfl)
  · exact (send_sms_credential_gate ⟨strToCodes "AC1", strToCodes "token",
      strToCodes "+15550000000"⟩ (Except.ok (strToCodes "SM1"))).2
      (by decide) (by decide) (by decide)

/-- C2 counterexample: with a matched plate, a configured recipient phone
and all three credentials set, a transport-level gateway error is NOT
caught by `upload_image` — the notification stage evaluates to the
propagated exception instead of a rendered result page. -/
theorem notify_sms_error_propagates_concrete :
    notifyAndFlash [strToCodes "ABC123"] (strToCodes "+15551234567")
      ⟨strToCodes "ACxxxx", strToCodes "token", strToCodes "+15557654321"⟩
      (Except.error (SmsError.transport (strToCodes "network unreachable"))) =
      Except.error (SmsError.transport (strToCodes "network unreachable")) := by
  rfl

/-- C2 amended: when matches are found, the recipient phone is configured
and all three credentials are present, a transport-level error raised by
the SMS gateway propagates out of the `upload_image` handler uncaught,
so the detection result page is not rendered; only the
missing-credentials case is absorbed inside `send_sms`. -/
theorem notify_sms_error_propagates (matchList : List PyStr) (phone : PyStr)
    (creds : TwilioCreds) (e : SmsError)
    (hm : ¬ matchList = []) (hp : ¬ phone = [])
    (h1 : ¬ creds.ACCOUNT_SID = []) (h2 : ¬ creds.AUTH_TOKEN = [])
    (h3 : ¬ creds.FROM_PHONE = []) :
    notifyAndFlash matchList phone creds (Except.error e) = Except.error e := by
  simp only [notifyAndFlash]
  rw [if_pos ⟨hm, hp⟩]
  simp only [send_sms]
  rw [if_neg (by tauto)]
  rfl

theorem notify_sms_error_propagates_witness :
    notifyAndFlash [strToCodes "XYZ999"] (strToCodes "+15550001111")
      ⟨strToCodes "ACyyyy", strToCodes "token2", strToCodes "+15552223333"⟩
      (Except.error (SmsError.transport (strToCodes "auth rejected"))) =
      Except.error (SmsError.transport (strToCodes "auth rejected")) :=
  notify_sms_error_propagates _ _ _ _ (by decide) (by decide)
    (by decide) (by decide) (by decide)

/-- C1: a non-JSON form submission of `/upload_image` carrying only
`image_data` is rejected with the `"No image received."` notice even
when decoding would succeed — the conditional expression of line 159
short-circuits the form field away for non-JSON requests — while a JSON
request with `image_data` in its body is decoded and reaches the
detection pipeline. -/
theorem upload_image_form_only_data_url_rejected :
    acquireImage (β := Nat) (fun _ => Except.ok 0) (fun _ => Except.ok 0)
      { fileData := none, isJson := false,
        formImageData := strToCodes "data:image/png;base64,iVBORw0KGgo",
        jsonImageData := none } = UploadImageOutcome.noImageReceived ∧
    acquireImage (β := Nat) (fun _ => Except.ok 0) (fun _ => Except.ok 0)
      { fileData := none, isJson := true, formImageData := [],
        jsonImageData := some (strToCodes "data:image/png;base64,iVBORw0KGgo") } =
      UploadImageOutcome.detectionPipeline 0 :=
  ⟨rfl, rfl⟩

/-- C4 counterexample: with the duplicate target list `["AB12", "AB12"]`
(producible by submitting `"AB12, AB12"`), the single matching candidate
`"AB12"` is appended twice — the match list is not the once-each subset
of candidates the claim states. -/
theorem matches_duplicate_targets_duplicated :
    plateMatches [strToCodes "AB12"] [strToCodes "AB12", strToCodes "AB12"] =
      [strToCodes "AB12", strToCodes "AB12"] ∧
    ¬ plateMatches [strToCodes "AB12"] [strToCodes "AB12", strToCodes "AB12"] =
      [strToCodes "AB12"] := by
  decide

theorem filter_match_of_nodup {ts : List PyStr} (x : PyStr) (hnd : ts.Nodup) :
    ts.filter (fun t => decide (¬ t = []) && decide (t = x)) =
      if ¬ x = [] ∧ x ∈ ts then [x] else [] := by
  induction ts with
  | nil => simp
  | cons t ts ih =>
    rw [List.nodup_cons] at hnd
    rw [List.filter_cons]
    by_cases hx : t = x
    · subst hx
      by_cases ht : t = []
      · subst ht
        have hcond : (decide (¬ ([] : PyStr) = []) && decide (([] : PyStr) = [])) = false := by
          simp
        rw [hcond, if_neg (by simp : ¬ false = true), ih hnd.2]
        simp
      · have hcond : (decide (¬ t = []) && decide (t = t)) = true := by simp [ht]
        rw [if_pos hcond]
        have hrest : ts.filter (fun a => decide (¬ a = []) && decide (a = t)) = [] := by
          apply List.filter_eq_nil_iff.mpr
          intro a ha
          have : ¬ a = t := fun h => hnd.1 (h ▸ ha)
          simp [this]
        rw [hrest, if_pos ⟨ht, by simp⟩]
    · have hcond : (decide (¬ t = []) && decide (t = x)) = false := by simp [hx]
      rw [hcond, if_neg (by simp)]
      rw [ih hnd.2]
      by_cases hmem : ¬ x = [] ∧ x ∈ ts
      · rw [if_pos hmem, if_pos ⟨hmem.1, List.mem_cons_of_mem t hmem.2⟩]
      · rw [if_neg hmem, if_neg (by
          intro ⟨hne, hmem2⟩
          rcases List.mem_cons.mp hmem2 with h | h
          · exact hx h.symm
          · exact hmem ⟨hne, h⟩)]

/-- C4 amended: when the configured target list has no duplicate entries,
the match loop returns exactly the original candidates whose normalized
form is a non-empty configured target, in candidate discovery order,
each such candidate occurrence once. -/
theorem matches_eq_filter_of_nodup_targets (detected targets : List PyStr)
    (hnd : targets.Nodup) :
    plateMatches detected targets =
      detected.filter
        (fun d => decide (¬ normalizeCand d = [] ∧ normalizeCand d ∈ targets)) := by
  induction detected with
  | nil => rfl
  | cons d ds ih =>
    show ((targets.filter
        (fun t => decide (¬ t = []) && decide (t = normalizeCand d))).map (fun _ => d)) ++
        plateMatches ds targets = _
    rw [filter_match_of_nodup (normalizeCand d) hnd, List.filter_cons, ih]
    by_cases hc : ¬ normalizeCand d = [] ∧ normalizeCand d ∈ targets
    · rw [if_pos hc, if_pos (by simpa using hc)]
      rfl
    · rw [if_neg hc, if_neg (by simpa using hc)]
      rfl

theorem matches_eq_filter_of_nodup_targets_witness :
    plateMatches [strToCodes "ab 12", strToCodes "QQ"] [strToCodes "AB12"] =
      List.filter
        (fun d => decide (¬ normalizeCand d = [] ∧ normalizeCand d ∈ [strToCodes "AB12"]))
        [strToCodes "ab 12", strToCodes "QQ"] :=
  matches_eq_filter_of_nodup_targets _ _ (by decide)

/-- First-occurrence de-duplication in canonical form: keep each head and
drop every later equal occurrence. `dedupKeepFirst` computes this. -/
def eraseFirsts : List PyStr → List PyStr
  | [] => []
  | p :: ps => p :: eraseFirsts (ps.filter (fun q => decide (¬ q = p)))
termination_by l => l.length
decreasing_by
  simp_wf
  exact Nat.lt_succ_of_le (List.length_filter_le _ _)

theorem eraseFirsts_nil : eraseFirsts [] = [] := by
  rw [eraseFirsts]

theorem eraseFirsts_cons (p : PyStr) (ps : List PyStr) :
    eraseFirsts (p :: ps) = p :: eraseFirsts (ps.filter (fun q => decide (¬ q = p))) := by
  rw [eraseFirsts]

/-- Index of the first occurrence of `x` (list length when absent):
the discovery position used to state order preservation. -/
def firstIdx (x : PyStr) : List PyStr → Nat
  | [] => 0
  | a :: t => if a = x then 0 else firstIdx x t + 1

theorem firstIdx_cons_self (x : PyStr) (t : List PyStr) : firstIdx x (x :: t) = 0 := by
  simp [firstIdx]

theorem firstIdx_cons_ne {a x : PyStr} (t : List PyStr) (h : ¬ a = x) :
    firstIdx x (a :: t) = firstIdx x t + 1 := by
  simp [firstIdx, h]

theorem mem_eraseFirsts (l : List PyStr) (x : PyStr) : x ∈ eraseFirsts l ↔ x ∈ l := by
  induction l using eraseFirsts.induct with
  | case1 => rw [eraseFirsts_nil]
  | case2 p ps ih =>
    rw [eraseFirsts_cons]
    simp only [List.mem_cons, ih, List.mem_filter, decide_eq_true_eq]
    constructor
    · rintro (h | ⟨h, _⟩)
      · exact Or.inl h
      · exact Or.inr h
    · rintro (h | h)
      · exact Or.inl h
      · by_cases hp : x = p
        · exact Or.inl hp
        · exact Or.inr ⟨h, hp⟩

theorem nodup_eraseFirsts (l : List PyStr) : (eraseFirsts l).Nodup := by
  induction l using eraseFirsts.induct with
  | case1 => rw [eraseFirsts_nil]; exact List.nodup_nil
  | case2 p ps ih =>
    rw [eraseFirsts_cons]
    refine List.nodup_cons.mpr ⟨?_, ih⟩
    intro hmem
    have h1 := (mem_eraseFirsts _ p).mp hmem
    have h2 := (List.mem_filter.mp h1).2
    simp at h2

theorem eraseFirsts_sublist (l : List PyStr) : List.Sublist (eraseFirsts l) l := by
  induction l using eraseFirsts.induct with
  | case1 => rw [eraseFirsts_nil]
  | case2 p ps ih =>
    rw [eraseFirsts_cons]
    exact List.Sublist.cons₂ p (ih.trans (List.filter_sublist ps))

theorem firstIdx_filter_lt :
    ∀ (l : List PyStr) (f : PyStr → Bool) (a b : PyStr), a ∈ l.filter f → b ∈ l.filter f →
      firstIdx a (l.filter f) < firstIdx b (l.filter f) →
      firstIdx a l < firstIdx b l := by
  intro l
  induction l with
  | nil =>
    intro f a b ha _ _
    simp at ha
  | cons c cs ih =>
    intro f a b ha hb hlt
    by_cases hfc : f c
    · rw [List.filter_cons_of_pos hfc] at ha hb hlt
      by_cases hac : c = a
      · subst hac
        by_cases hbc : c = b
        · subst hbc
          exact absurd hlt (by omega)
        · rw [firstIdx_cons_self, firstIdx_cons_ne _ hbc]
          omega
      · have ha2 : a ∈ cs.filter f := by
          rcases List.mem_cons.mp ha with h | h
          · exact absurd h.symm hac
          · exact h
        by_cases hbc : c = b
        · subst hbc
          rw [firstIdx_cons_self, firstIdx_cons_ne _ hac] at hlt
          exact absurd hlt (by omega)
        · have hb2 : b ∈ cs.filter f := by
            rcases List.mem_cons.mp hb with h | h
            · exact absurd h.symm hbc
            · exact h
          rw [firstIdx_cons_ne _ hac, firstIdx_cons_ne _ hbc] at hlt
          rw [firstIdx_cons_ne _ hac, firstIdx_cons_ne _ hbc]
          have := ih f a b ha2 hb2 (by omega)
          omega
    · rw [List.filter_cons_of_neg hfc] at ha hb hlt
      have hfa : f a = true := (List.mem_filter.mp ha).2
      have hfb : f b = true := (List.mem_filter.mp hb).2
      have hac : ¬ c = a := fun h => hfc (by rw [h]; exact hfa)
      have hbc : ¬ c = b := fun h => hfc (by rw [h]; exact hfb)
      rw [firstIdx_cons_ne _ hac, firstIdx_cons_ne _ hbc]
      have := ih f a b ha hb hlt
      omega

theorem eraseFirsts_pairwise (l : List PyStr) :
    (eraseFirsts l).Pairwise (fun a b => firstIdx a l < firstIdx b l) := by
  induction l using eraseFirsts.induct with
  | case1 => rw [eraseFirsts_nil]; exact List.Pairwise.nil
  | case2 p ps ih =>
    rw [eraseFirsts_cons]
    refine List.pairwise_cons.mpr ⟨?_, ?_⟩
    · intro b hb
      have hbf := (mem_eraseFirsts _ b).mp hb
      have hbp : ¬ b = p := by simpa using (List.mem_filter.mp hbf).2
      rw [firstIdx_cons_self, firstIdx_cons_ne _ (fun h => hbp h.symm)]
      omega
    · refine List.Pairwise.imp_of_mem ?_ ih
      intro a b ha hb hlt
      have haf := (mem_eraseFirsts _ a).mp ha
      have hbf := (mem_eraseFirsts _ b).mp hb
      have hap : ¬ a = p := by simpa using (List.mem_filter.mp haf).2
      have hbp : ¬ b = p := by simpa using (List.mem_filter.mp hbf).2
      have h2 := firstIdx_filter_lt ps _ a b haf hbf hlt
      rw [firstIdx_cons_ne _ (fun h => hap h.symm), firstIdx_cons_ne _ (fun h => hbp h.symm)]
      omega

theorem dedupKeepFirst_eq (l : List PyStr) :
    ∀ acc, dedupKeepFirst acc l = acc ++ eraseFirsts (l.filter (fun q => decide (¬ q ∈ acc))) := by
  induction l with
  | nil =>
    intro acc
    simp [dedupKeepFirst, eraseFirsts_nil]
  | cons p ps ih =>
    intro acc
    by_cases hp : p ∈ acc
    · show (if p ∈ acc then dedupKeepFirst acc ps else dedupKeepFirst (acc ++ [p]) ps) = _
      rw [if_pos hp, ih acc, List.filter_cons_of_neg (by simpa using hp)]
    · show (if p ∈ acc then dedupKeepFirst acc ps else dedupKeepFirst (acc ++ [p]) ps) = _
      rw [if_neg hp, ih (acc ++ [p]), List.filter_cons_of_pos (by simpa using hp),
        eraseFirsts_cons, List.append_assoc]
      have hff : ps.filter (fun q => decide (¬ q ∈ acc ++ [p])) =
          (ps.filter (fun q => decide (¬ q ∈ acc))).filter (fun q => decide (¬ q = p)) := by
        rw [List.filter_filter]
        apply List.filter_congr
        intro a _
        by_cases h1 : a ∈ acc <;> by_cases h2 : a = p <;>
          simp [h1, h2, List.mem_append]
      rw [hff]
      rfl

theorem detect_eq_eraseFirsts (ocr : List PyStr) :
    detect_license_plate_from_image ocr =
      eraseFirsts ((ocr.map pyStrip).filter (fun p => decide (¬ p = []))) := by
  unfold detect_license_plate_from_image
  rw [dedupKeepFirst_eq _ [], List.nil_append]
  congr 1
  apply List.filter_eq_self.mpr
  intro a _
  simp

/-- C6: for every sequence of OCR results, the list returned by
`detect_license_plate_from_image` contains only non-empty
whitespace-stripped strings, has no two equal entries, and lists the
distinct texts in the order of their first discovery: membership agrees
with the stripped non-empty OCR sequence, the result is a sublist of it,
and entries are ordered by first-occurrence index in it. -/
theorem detect_output_distinct_ordered (ocr : List PyStr) :
    (detect_license_plate_from_image ocr).Nodup ∧
    (∀ p ∈ detect_license_plate_from_image ocr, ¬ p = [] ∧ pyStrip p = p) ∧
    (∀ p, p ∈ detect_license_plate_from_image ocr ↔
      p ∈ (ocr.map pyStrip).filter (fun q => decide (¬ q = []))) ∧
    List.Sublist (detect_license_plate_from_image ocr)
      ((ocr.map pyStrip).filter (fun q => decide (¬ q = []))) ∧
    (detect_license_plate_from_image ocr).Pairwise
      (fun a b =>
        firstIdx a ((ocr.map pyStrip).filter (fun q => decide (¬ q = []))) <
        firstIdx b ((ocr.map pyStrip).filter (fun q => decide (¬ q = [])))) := by
  rw [detect_eq_eraseFirsts]
  refine ⟨nodup_eraseFirsts _, ?_, fun p => mem_eraseFirsts _ p, eraseFirsts_sublist _,
    eraseFirsts_pairwise _⟩
  intro p hp
  have hpb := (mem_eraseFirsts _ p).mp hp
  have h2 := List.mem_filter.mp hpb
  have hne : ¬ p = [] := by simpa using h2.2
  obtain ⟨q, _, hq⟩ := List.mem_map.mp h2.1
  exact ⟨hne, by rw [← hq, pyStrip_idem]⟩

theorem detect_output_distinct_ordered_witness :
    ¬ strToCodes "AB1" = [] ∧ pyStrip (strToCodes "AB1") = strToCodes "AB1" :=
  (detect_output_distinct_ordered
      [strToCodes " AB1 ", strToCodes "AB1", strToCodes "", strToCodes "CD2"]).2.1
    (strToCodes "AB1") (by decide)

